import Mathlib

/-!
Shallow embedding of the DiffSinger binarization pipeline
(src/preprocessing/variance_binarizer.py and src/preprocessing/acoustic_binarizer.py).

Real-valued quantities (durations in seconds, frame hops, pitch values,
augmentation parameters) are modelled as exact rationals.  `torch.round`
and Python `round` both round halves to even; `roundHalfEven` mirrors that.
Randomness is modelled by explicit streams of pre-drawn values passed as
function arguments.
-/

namespace DiffSinger

/-- Python `int(...)` applied to a rational: truncation toward zero. -/
def pyInt (q : ℚ) : ℤ := if 0 ≤ q then q.floor else -(Rat.floor (-q))

/-- `torch.round` / Python `round`: round to nearest, ties to even. -/
def roundHalfEven (q : ℚ) : ℤ :=
  if q - (q.floor : ℚ) < 1/2 then q.floor
  else if (1/2 : ℚ) < q - (q.floor : ℚ) then q.floor + 1
  else if q.floor % 2 = 0 then q.floor else q.floor + 1

/-- The computable `Rat.floor` agrees with the order-theoretic floor. -/
theorem ratFloor_eq_floor (q : ℚ) : q.floor = ⌊q⌋ := by
  rw [Rat.floor_def', Rat.floor_def]

/-- Last element of a list, or the given default when the list is empty. -/
def lastD {α : Type} (d : α) : List α → α
  | [] => d
  | x :: xs => lastD x xs

/-- `torch.cumsum` starting from a running accumulator. -/
def cumsumAux (acc : ℚ) : List ℚ → List ℚ
  | [] => []
  | x :: xs => (acc + x) :: cumsumAux (acc + x) xs

/-- `torch.cumsum(·, dim=0)` on a rational list. -/
def cumsum (l : List ℚ) : List ℚ := cumsumAux 0 l

/-- `torch.diff(·, prepend=[prev])`: consecutive differences. -/
def diffAux (prev : ℤ) : List ℤ → List ℤ
  | [] => []
  | x :: xs => (x - prev) :: diffAux x xs

/-- `torch.diff(·, prepend=[0])` as used on the rounded cumulative boundaries. -/
def diffPrepend0 (l : List ℤ) : List ℤ := diffAux 0 l

/-- Rounded cumulative frame boundaries
(variance_binarizer.py line 86:
`ph_acc = torch.round(torch.cumsum(ph_dur_sec, dim=0) / self.timestep + 0.5).long()`). -/
def ph_acc (durs : List ℚ) (hop : ℚ) : List ℤ :=
  (cumsum durs).map fun c => roundHalfEven (c / hop + 1/2)

/-- Per-unit frame counts
(variance_binarizer.py line 87:
`ph_dur = torch.diff(ph_acc, dim=0, prepend=torch.LongTensor([0]))`). -/
def phDurFrames (durs : List ℚ) (hop : ℚ) : List ℤ :=
  diffPrepend0 (ph_acc durs hop)

/-- Target frame count (variance_binarizer.py line 83:
`length = round(seconds / self.timestep)`). -/
def varianceLength (durs : List ℚ) (hop : ℚ) : ℤ :=
  roundHalfEven (durs.sum / hop)

/-- Expansion of per-unit frame counts into a frame-to-unit index list:
unit `i` (0-based) contributes its 1-based index `i+1`, repeated for its
frame count. -/
def expandAux : ℕ → List ℤ → List ℕ
  | _, [] => []
  | i, c :: cs => List.replicate c.toNat (i + 1) ++ expandAux (i + 1) cs

/-- Modelled from the spec: the `LengthRegulator` module invoked by
`get_mel2ph_torch` is not under src; per section 4.1 the per-unit frame
counts are expanded into a frame-to-unit index list by repeating each
unit's 1-based index for its frame count. -/
def expandMel2ph (counts : List ℤ) : List ℕ := expandAux 0 counts

/-- Fit a list to an exact target length: pad by repeating the last
element when too short, truncate when too long. -/
def fitLength (l : List ℕ) (length : ℕ) : List ℕ :=
  if l.length < length then l ++ List.replicate (length - l.length) (lastD 0 l)
  else l.take length

/-- Modelled from the spec: `get_mel2ph_torch` (utils/binarizer_utils.py) is
not under src; per section 4.1 it recomputes the rounded cumulative
boundaries and per-unit frame counts, expands them into a frame-to-unit
index list, and deterministically pads (repeating the last index) or
truncates so the result has exactly the caller-supplied frame count. -/
def get_mel2ph (durs : List ℚ) (length : ℕ) (hop : ℚ) : List ℕ :=
  fitLength (expandMel2ph (phDurFrames durs hop)) length

/-! ### Variance binarizer per-item slice (variance_binarizer.py, process_item) -/

/-- The alignment-related fields of the record built by
`VarianceBinarizer.process_item` (lines 82-104), plus the skip decision of
lines 141-144.  External inputs (the unvoiced mask coming from
`get_pitch_parselmouth`) are passed in as data. -/
structure VarianceRecord where
  name : String
  seconds : ℚ
  length : ℤ
  ph_dur : List ℤ
  mel2ph : List ℕ
deriving DecidableEq

/-- `VarianceBinarizer.process_item`, restricted to the timeline fields and
the empty-pitch skip: computes `seconds`, `length`, `ph_dur`, `mel2ph`
(lines 82-92), and returns no record when every frame of the measured
pitch is unvoiced (lines 142-144: `if uv.all(): ... return None`). -/
def variance_process_item (name : String) (ph_dur_sec : List ℚ) (timestep : ℚ)
    (uv : List Bool) : Option VarianceRecord :=
  let seconds := ph_dur_sec.sum
  let length := roundHalfEven (seconds / timestep)
  if uv.all id then none
  else some ⟨name, seconds, length, phDurFrames ph_dur_sec timestep,
    get_mel2ph ph_dur_sec length.toNat timestep⟩

/-! ### Phoneme-level mean MIDI pitch (variance_binarizer.py lines 117-125) -/

/-- `torch.gather(F.pad(vals, [1, 0], value=1), 0, idx)`: frame-level lookup
of a per-unit quantity through the frame-to-unit index, where index 0 (the
padding unit) reads the pad value 1. -/
def gatherPad1 (vals : List ℤ) (idx : List ℕ) : List ℤ :=
  idx.map fun i => if i = 0 then 1 else vals.getD (i - 1) 1

/-- Per-phoneme rest-frame counts
(`ph_dur_rest = mel2ph.new_zeros(t_txt + 1).scatter_add(0, mel2ph, rest.long())[1:]`):
entry `p` counts the frames assigned to phoneme `p+1` whose frame-level
pitch is a rest (zero). -/
def ph_dur_rest (t_txt : ℕ) (mel2ph : List ℕ) (rest : List Bool) : List ℤ :=
  (List.range t_txt).map fun p =>
    (((mel2ph.zip rest).filter fun fr => fr.1 = p + 1 ∧ fr.2 = true).length : ℤ)

/-- The division-safe denominator
`(mel2dur - mel2dur_rest) + (mel2dur == mel2dur_rest)` of line 122. -/
def divisor (d r : ℤ) : ℤ := (d - r) + (if d = r then 1 else 0)

/-- Frame-level contribution `frame_midi_pitch / ((mel2dur - mel2dur_rest) +
(mel2dur == mel2dur_rest))` of line 122. -/
def pitchContrib (t_txt : ℕ) (mel2ph : List ℕ) (framePitch : List ℚ)
    (ph_dur : List ℤ) : List ℚ :=
  let rest := framePitch.map fun q => decide (q = 0)
  let mel2dur := gatherPad1 ph_dur mel2ph
  let mel2dur_rest := gatherPad1 (ph_dur_rest t_txt mel2ph rest) mel2ph
  (framePitch.zip (mel2dur.zip mel2dur_rest)).map fun x =>
    x.1 / ((divisor x.2.1 x.2.2 : ℤ) : ℚ)

/-- Phoneme-level mean MIDI pitch
(`ph_midi = mel2ph.new_zeros(t_txt + 1).float().scatter_add(0, mel2ph, ...)[1:]`):
entry `p` sums the frame contributions of the frames assigned to
phoneme `p+1`. -/
def ph_midi (t_txt : ℕ) (mel2ph : List ℕ) (framePitch : List ℚ)
    (ph_dur : List ℤ) : List ℚ :=
  let contrib := pitchContrib t_txt mel2ph framePitch ph_dur
  (List.range t_txt).map fun p =>
    (((mel2ph.zip contrib).filter fun fc => fc.1 = p + 1).map fun fc => fc.2).sum

/-- Number of frames assigned to phoneme `p+1` by the alignment. -/
def frameCount (mel2ph : List ℕ) (p : ℕ) : ℕ :=
  (mel2ph.filter fun i => i = p + 1).length

/-- Number of rest frames assigned to phoneme `p+1`. -/
def restFrameCount (mel2ph : List ℕ) (rest : List Bool) (p : ℕ) : ℕ :=
  ((mel2ph.zip rest).filter fun fr => fr.1 = p + 1 ∧ fr.2 = true).length

/-- Number of non-rest frames assigned to phoneme `p+1`, as an integer. -/
def nonRestCount (mel2ph : List ℕ) (rest : List Bool) (p : ℕ) : ℤ :=
  (frameCount mel2ph p : ℤ) - (restFrameCount mel2ph rest p : ℤ)

/-! ### Coverage validator (acoustic_binarizer.py, check_coverage) -/

/-- The two failure shapes of `AcousticBinarizer.check_coverage`: the
empty-tokens raise of line 85 and the dictionary-mismatch raise of
lines 124-126 (the latter carrying the sorted unrecognized and missing
phoneme lists). -/
inductive CoverageError where
  | emptyTokens (itemName : String)
  | mismatch (unrecognized missing : List String)
deriving DecidableEq

/-- The phoneme-accumulation loop of lines 82-85: extends the occurred list
with each item's phoneme sequence and raises when the accumulated list is
empty after an item. -/
def gatherPhonemes (acc : List String) :
    List (String × List String) → Except CoverageError (List String)
  | [] => .ok acc
  | (itemName, seq) :: rest =>
    if (acc ++ seq).length = 0 then .error (.emptyTokens itemName)
    else gatherPhonemes (acc ++ seq) rest

/-- Python `sorted` on strings. -/
def sortStrs (l : List String) : List String :=
  l.insertionSort fun a b => a ≤ b

/-- Python set equality between the element sets of two lists. -/
def sameSet (a b : List String) : Bool :=
  (a.all fun x => b.contains x) && (b.all fun x => a.contains x)

instance {ε α : Type} [DecidableEq ε] [DecidableEq α] : DecidableEq (Except ε α) :=
  fun a b =>
  match a, b with
  | .error e, .error f =>
    if h : e = f then isTrue (by rw [h]) else isFalse (fun c => by cases c; exact h rfl)
  | .ok x, .ok y =>
    if h : x = y then isTrue (by rw [h]) else isFalse (fun c => by cases c; exact h rfl)
  | .error _, .ok _ => isFalse (fun c => by cases c)
  | .ok _, .error _ => isFalse (fun c => by cases c)

/-- What the coverage validator produced: the printed per-phoneme
distribution summary (empty when nothing was printed before a raise) and
the final verdict. -/
structure CoverageOutcome where
  printed : List (String × ℕ)
  result : Except CoverageError Unit
deriving DecidableEq

/-- `AcousticBinarizer.check_coverage` (lines 74-126): counts occurrences of
required phonemes over the corpus, prints the distribution summary (keys
sorted), then raises when the observed phoneme set differs from the
required set, carrying `sorted(observed - required)` and
`sorted(required - observed)`. -/
def check_coverage (required : List String) (items : List (String × List String)) :
    CoverageOutcome :=
  match gatherPhonemes [] items with
  | .error e => ⟨[], .error e⟩
  | .ok ph_occurred =>
    let summary := (sortStrs required.dedup).map fun k => (k, ph_occurred.count k)
    let occSet := ph_occurred.dedup
    if sameSet occSet required then ⟨summary, .ok ()⟩
    else ⟨summary, .error (.mismatch
      (sortStrs (occSet.filter fun x => ¬ required.contains x))
      (sortStrs (required.dedup.filter fun x => ¬ occSet.contains x)))⟩

/-! ### Augmentation scheduler (acoustic_binarizer.py, arrange_data_augmentation) -/

/-- One scheduled augmentation task: the dynamic
`{name, func, kwargs}` dictionaries of the source, with the `kwargs`
entries (`key_shift`, `replace_spk_id`, `speed`) as optional fields. -/
structure AugTask where
  name : String
  key_shift : Option ℚ
  replace_spk_id : Option ℤ
  speed : Option ℚ
deriving DecidableEq

/-- `random.choices(pool, k=k)`: `k` draws with replacement, the `j`-th
draw picking the element at `pick j` (reduced modulo the pool size). -/
def randChoices {α : Type} (dflt : α) (pool : List α) (k : ℕ) (pick : ℕ → ℕ) :
    List α :=
  (List.range k).map fun j => pool.getD (pick j % pool.length) dflt

/-- The piecewise shift mapping of lines 244-248: a uniform draw `r` from
`[-1, 1]` becomes `key_shift_min * abs(r)` when negative and
`key_shift_max * r` otherwise. -/
def keyShiftOf (kmin kmax r : ℚ) : ℚ :=
  if r < 0 then kmin * |r| else kmax * r

/-- The `random_pitch_shifting` branch (lines 230-260): after the
`use_key_shift_embed` and range checks, samples
`int(scale * len(all_item_names))` item names with replacement and builds
one pitch-shift task per sample, with the shift given by `keyShiftOf` on
the per-sample uniform draw. -/
def random_pitch_shifting_branch (useKeyShiftEmbed : Bool) (kmin kmax scale : ℚ)
    (allItemNames : List String) (pick : ℕ → ℕ) (draw : ℕ → ℚ) :
    Except String (List AugTask) :=
  if useKeyShiftEmbed = false then
    .error "Random pitch shifting augmentation requires use_key_shift_embed == True."
  else if ¬(kmin < 0 ∧ 0 < kmax) then
    .error "Random pitch shifting augmentation must have a range where min < 0 < max."
  else
    let k := (pyInt (scale * (allItemNames.length : ℚ))).toNat
    .ok ((List.range k).map fun j =>
      ⟨allItemNames.getD (pick j % allItemNames.length) "",
        some (keyShiftOf kmin kmax (draw j)), none, none⟩)

/-- The characters of `aug_item_name.split(':', maxsplit=1)[0]`: the prefix
of the item name before the first colon. -/
def takeUntilColon : List Char → List Char
  | [] => []
  | c :: cs => if c = ':' then [] else c :: takeUntilColon cs

/-- One decimal digit of Python `int(...)` parsing. -/
def charDigit (c : Char) : Option ℕ :=
  if '0' ≤ c ∧ c ≤ '9' then some (c.toNat - '0'.toNat) else none

/-- Accumulating decimal parse of Python `int(...)` on digit characters. -/
def parseNatAux (acc : ℕ) : List Char → Option ℕ
  | [] => some acc
  | c :: cs =>
    match charDigit c with
    | none => none
    | some d => parseNatAux (acc * 10 + d) cs

/-- Python `int(s)` for a non-negative decimal string (none on failure). -/
def parseNatChars (l : List Char) : Option ℕ :=
  if l.isEmpty then none else parseNatAux 0 l

/-- `int(aug_item_name.split(':', maxsplit=1)[0])` of line 280: the dataset
id encoded as the decimal prefix of the item name before the first colon
(dataset ids are non-negative; 0 stands in for the unreachable parse
failure, which Python would raise on). -/
def parseDsId (name : String) : ℤ :=
  ((parseNatChars (takeUntilColon name.data)).map fun n => (n : ℤ)).getD 0

/-- The inner loop of the `fixed_pitch_shifting` branch for one target
(lines 279-290): each sampled item name receives a task with the target as
shift and replacement speaker id
`int(name.split(':')[0]) + (i + 1) * len(self.spk_map)`. -/
def fixedTasksForTarget (spkMapSize : ℕ) (i : ℕ) (target : ℚ)
    (chosen : List String) : List AugTask :=
  chosen.map fun n =>
    ⟨n, some target, some (parseDsId n + ((i : ℤ) + 1) * (spkMapSize : ℤ)), none⟩

/-- The `for i, target in enumerate(targets)` loop of lines 277-290. -/
def fixedTasksAux (spkMapSize k : ℕ) (allNames : List String)
    (pick : ℕ → ℕ → ℕ) : ℕ → List ℚ → List AugTask
  | _, [] => []
  | i, t :: ts =>
    fixedTasksForTarget spkMapSize i t (randChoices "" allNames k (pick i))
      ++ fixedTasksAux spkMapSize k allNames pick (i + 1) ts

/-- The `fixed_pitch_shifting` branch (lines 262-292), including its
configuration asserts in source order; `randomCfgPresent` states whether a
`random_pitch_shifting` block is configured (line 267 rejects the
combination). -/
def fixed_pitch_shifting_branch (randomCfgPresent useSpkId : Bool)
    (numSpk spkMapSize : ℕ) (targets : List ℚ) (scale : ℚ)
    (allNames : List String) (pick : ℕ → ℕ → ℕ) : Except String (List AugTask) :=
  if randomCfgPresent then
    .error "Fixed pitch shifting augmentation is not compatible with random pitch shifting."
  else if targets.length ≠ targets.dedup.length then
    .error "Fixed pitch shifting augmentation requires having no duplicate targets."
  else if useSpkId = false then
    .error "Fixed pitch shifting augmentation requires use_spk_id == True."
  else if numSpk < (1 + targets.length) * spkMapSize then
    .error "Fixed pitch shifting augmentation requires num_spk >= (1 + len(targets)) * len(speakers)."
  else if ¬ scale < 1 then
    .error "Fixed pitch shifting augmentation requires scale < 1."
  else
    .ok (fixedTasksAux spkMapSize ((pyInt (scale * (allNames.length : ℚ))).toNat)
      allNames pick 0 targets)

/-- The `aug_type == 1` step of the `random_time_stretching` branch
(lines 332-339), for one task `aug_item` drawn from the already-scheduled
task list: `aug_task = deepcopy(aug_item)` is the task appended to
`aug_map` and `aug_list`, and `aug_item['kwargs']['speed'] = speed`
rewrites the drawn task itself.  Returns (appended task, drawn task after
the step). -/
def timeStretchFromAugStep (aug_item : AugTask) (speed : ℚ) : AugTask × AugTask :=
  let aug_task := aug_item
  (aug_task, ⟨aug_item.name, aug_item.key_shift, aug_item.replace_spk_id, some speed⟩)

/-- The `aug_type == 2` step (lines 340-341): in-place mutation of the
drawn task's speed; nothing is appended. -/
def timeStretchMutateStep (aug_item : AugTask) (speed : ℚ) : AugTask :=
  ⟨aug_item.name, aug_item.key_shift, aug_item.replace_spk_id, some speed⟩

/-! ### Binarization driver (acoustic_binarizer.py, process_data_split) -/

/-- Driver accumulator: the record store contents, the length index, the
total seconds including augmentation, and the raw total seconds. -/
structure SplitState (α : Type) where
  store : List α
  lengths : List ℤ
  total_sec : ℚ
  total_raw_sec : ℚ

/-- The `postprocess` closure of lines 145-160: a `None` result is skipped
outright; otherwise the record is appended to the store and length index,
its duration accumulated, and every queued augmentation task for its item
name is applied and appended in turn. -/
def postprocessOne {α : Type} (nameOf : α → String) (lengthOf : α → ℤ)
    (secondsOf : α → ℚ) (augMap : String → List AugTask)
    (applyAug : α → AugTask → α) (st : SplitState α) (item : Option α) :
    SplitState α :=
  match item with
  | none => st
  | some r =>
    let augRecords := (augMap (nameOf r)).map (applyAug r)
    ⟨st.store ++ r :: augRecords,
      st.lengths ++ lengthOf r :: augRecords.map lengthOf,
      st.total_sec + secondsOf r + (augRecords.map secondsOf).sum,
      st.total_raw_sec + secondsOf r⟩

/-- The per-split processing loop of lines 162-173: every per-item result
(in completion order) is fed through `postprocess`. -/
def process_data_split {α : Type} (nameOf : α → String) (lengthOf : α → ℤ)
    (secondsOf : α → ℚ) (augMap : String → List AugTask)
    (applyAug : α → AugTask → α) (items : List (Option α)) : SplitState α :=
  items.foldl (postprocessOne nameOf lengthOf secondsOf augMap applyAug)
    ⟨[], [], 0, 0⟩

/-- Boolean non-decreasing check on a frame-to-unit index list. -/
def nonDecreasing (l : List ℕ) : Bool :=
  (l.zip l.tail).all fun p => p.1 ≤ p.2

/-! ### Helper lemmas -/

theorem roundHalfEven_bounds (q : ℚ) :
    ⌊q⌋ ≤ roundHalfEven q ∧ roundHalfEven q ≤ ⌊q⌋ + 1 := by
  unfold roundHalfEven
  simp only [ratFloor_eq_floor]
  split_ifs <;> omega

theorem roundHalfEven_mono {x y : ℚ} (h : x ≤ y) :
    roundHalfEven x ≤ roundHalfEven y := by
  have hf : ⌊x⌋ ≤ ⌊y⌋ := Int.floor_mono h
  rcases lt_or_eq_of_le hf with hlt | heq
  · have h1 := (roundHalfEven_bounds x).2
    have h2 := (roundHalfEven_bounds y).1
    omega
  · have hr : x - (⌊x⌋ : ℚ) ≤ y - (⌊x⌋ : ℚ) := by linarith
    unfold roundHalfEven
    simp only [ratFloor_eq_floor, ← heq]
    split_ifs <;> first | omega | linarith

theorem sum_diffAux (l : List ℤ) : ∀ p, (diffAux p l).sum = lastD p l - p := by
  induction l with
  | nil => intro p; simp [diffAux, lastD]
  | cons x xs ih =>
    intro p
    simp only [diffAux, lastD, List.sum_cons, ih x]
    omega

theorem lastD_cumsumAux (l : List ℚ) :
    ∀ a d, lastD d (cumsumAux a l) = if l.isEmpty then d else a + l.sum := by
  induction l with
  | nil => intro a d; simp [cumsumAux, lastD]
  | cons x xs ih =>
    intro a d
    simp only [cumsumAux, lastD, ih (a + x) (a + x), List.isEmpty_cons, List.sum_cons]
    cases xs with
    | nil => simp
    | cons y ys => simp; ring

theorem lastD_map {α β : Type} (f : α → β) :
    ∀ (l : List α), l ≠ [] → ∀ (d : β) (e : α), lastD d (l.map f) = f (lastD e l)
  | [], h => absurd rfl h
  | [x], _ => by intro d e; simp [lastD]
  | x :: y :: ys, _ => by
    intro d e
    simp only [List.map_cons, lastD]
    exact lastD_map f (y :: ys) (by simp) (f x) x

theorem fitLength_length (l : List ℕ) (n : ℕ) : (fitLength l n).length = n := by
  unfold fitLength
  split_ifs with h
  · simp only [List.length_append, List.length_replicate]
    omega
  · simp only [List.length_take]
    omega

theorem chain_cumsumAux (l : List ℚ) :
    ∀ a, (∀ d ∈ l, 0 ≤ d) → List.Chain (· ≤ ·) a (cumsumAux a l) := by
  induction l with
  | nil => intro a _; exact List.Chain.nil
  | cons x xs ih =>
    intro a h
    refine List.Chain.cons ?_ (ih (a + x) ?_)
    · have := h x (by simp)
      linarith
    · intro d hd
      exact h d (by simp [hd])

theorem diffAux_nonneg (l : List ℤ) :
    ∀ p, List.Chain (· ≤ ·) p l → ∀ c ∈ diffAux p l, 0 ≤ c := by
  induction l with
  | nil => intro p _ c hc; simp [diffAux] at hc
  | cons x xs ih =>
    intro p hchain c hc
    cases hchain with
    | cons hpx hrest =>
      simp only [diffAux, List.mem_cons] at hc
      rcases hc with h | h
      · omega
      · exact ih x hrest c h

theorem keyShiftOf_spec {kmin kmax r : ℚ} (hmin : kmin < 0) (hmax : 0 < kmax)
    (hr1 : -1 ≤ r) (hr2 : r ≤ 1) :
    kmin ≤ keyShiftOf kmin kmax r ∧ keyShiftOf kmin kmax r ≤ kmax ∧
    (r < 0 → keyShiftOf kmin kmax r = kmin * |r| ∧ keyShiftOf kmin kmax r ≤ 0) ∧
    (0 ≤ r → keyShiftOf kmin kmax r = kmax * r ∧ 0 ≤ keyShiftOf kmin kmax r) := by
  unfold keyShiftOf
  by_cases h : r < 0
  · rw [if_pos h]
    rw [abs_of_neg h]
    refine ⟨by nlinarith, by nlinarith, fun _ => ⟨rfl, by nlinarith⟩,
      fun h0 => absurd h (not_lt.mpr h0)⟩
  · rw [if_neg h]
    push_neg at h
    refine ⟨by nlinarith, by nlinarith, fun hneg => absurd hneg (not_lt.mpr h),
      fun _ => ⟨rfl, by nlinarith⟩⟩

theorem cumsum_ne_nil {durs : List ℚ} (hne : durs ≠ []) : cumsum durs ≠ [] := by
  unfold cumsum
  cases durs with
  | nil => exact absurd rfl hne
  | cons x xs => simp [cumsumAux]

theorem phDurFrames_sum (durs : List ℚ) (hop : ℚ) (hne : durs ≠ []) :
    (phDurFrames durs hop).sum = roundHalfEven (durs.sum / hop + 1/2) := by
  unfold phDurFrames diffPrepend0
  rw [sum_diffAux]
  have h1 : lastD 0 (ph_acc durs hop)
      = roundHalfEven ((lastD 0 (cumsum durs)) / hop + 1/2) := by
    unfold ph_acc
    exact lastD_map _ (cumsum durs) (cumsum_ne_nil hne) 0 0
  have h2 : lastD (0 : ℚ) (cumsum durs) = durs.sum := by
    unfold cumsum
    rw [lastD_cumsumAux durs 0 0]
    cases durs with
    | nil => exact absurd rfl hne
    | cons x xs => simp
  rw [h1, h2]
  omega

/-! ### Claim theorems -/

/-- C1: the Timeline Aligner turns the cumulative duration boundaries of
`[0.1, 0.2, 0.1]` at hop `0.01` (rounded via `round(c / hop + 0.5)`, diffs
with a prepended zero) into per-unit frame counts `[10, 20, 10]` summing
to the 40-frame total, and the expanded frame-to-unit alignment is the
non-decreasing 40-frame list with runs of 1, 2, 3 of lengths 10, 20, 10. -/
theorem C1_aligner_concrete :
    phDurFrames [1/10, 1/5, 1/10] (1/100) = [10, 20, 10] ∧
    (phDurFrames [1/10, 1/5, 1/10] (1/100)).sum = 40 ∧
    varianceLength [1/10, 1/5, 1/10] (1/100) = 40 ∧
    get_mel2ph [1/10, 1/5, 1/10] 40 (1/100)
      = List.replicate 10 1 ++ List.replicate 20 2 ++ List.replicate 10 3 ∧
    nonDecreasing (get_mel2ph [1/10, 1/5, 1/10] 40 (1/100)) = true := by
  have h : phDurFrames [1/10, 1/5, 1/10] (1/100) = [10, 20, 10] := by
    norm_num [phDurFrames, ph_acc, cumsum, cumsumAux, diffPrepend0, diffAux,
      roundHalfEven, ratFloor_eq_floor]
  have hm : get_mel2ph [1/10, 1/5, 1/10] 40 (1/100)
      = List.replicate 10 1 ++ List.replicate 20 2 ++ List.replicate 10 3 := by
    unfold get_mel2ph
    rw [h]
    decide
  refine ⟨h, by rw [h]; decide, ?_, hm, by rw [hm]; decide⟩
  norm_num [varianceLength, roundHalfEven, ratFloor_eq_floor]

/-- C2 counterexample: for the single duration `0.094` at hop `0.01` the
per-unit frame counts sum to `round(9.4 + 0.5) = 10`, while the target
frame count of the variance binarizer is `round(9.4) = 9`: the sum does
not equal `round(total_seconds / timestep)`. -/
theorem C2_cex :
    (phDurFrames [47/500] (1/100)).sum = 10 ∧
    varianceLength [47/500] (1/100) = 9 := by
  constructor
  · norm_num [phDurFrames, ph_acc, cumsum, cumsumAux, diffPrepend0, diffAux,
      roundHalfEven, ratFloor_eq_floor]
  · norm_num [varianceLength, roundHalfEven, ratFloor_eq_floor]

/-- C2 (amended): for every non-empty duration sequence the per-unit frame
counts sum exactly to the final rounded cumulative boundary
`round(total_seconds / hop + 0.5)` (so consecutive units leave no gaps and
do not overlap), and the frame-to-unit alignment array returned by
`get_mel2ph` is padded or truncated to exactly the caller-supplied target
frame count. -/
theorem C2_aligner_sum (durs : List ℚ) (hop : ℚ) (len : ℕ) (hne : durs ≠ []) :
    (phDurFrames durs hop).sum = roundHalfEven (durs.sum / hop + 1/2) ∧
    (get_mel2ph durs len hop).length = len :=
  ⟨phDurFrames_sum durs hop hne, fitLength_length _ _⟩

/-- C2 witness: the amended statement at durations `[0.1]`, hop `0.01`,
target length 10. -/
theorem C2_witness :
    ([(1/10 : ℚ)] ≠ []) ∧
    ((phDurFrames [1/10] (1/100)).sum
        = roundHalfEven (([(1/10 : ℚ)].sum) / (1/100) + 1/2) ∧
      (get_mel2ph [1/10] 10 (1/100)).length = 10) :=
  ⟨by simp, C2_aligner_sum [1/10] (1/100) 10 (by simp)⟩

/-- C9 counterexample: with the non-monotonic durations `[0.2, -0.1]` and
hop `0.01` the variance binarizer raises no error: it returns a record
whose per-unit frame counts `[20, -10]` contain a negative entry. -/
theorem C9_cex :
    variance_process_item "item" [1/5, -1/10] (1/100) [false]
      = some ⟨"item", 1/10, 10, [20, -10], List.replicate 10 1⟩ := by
  have hdur : phDurFrames [1/5, -1/10] (1/100) = [20, -10] := by
    norm_num [phDurFrames, ph_acc, cumsum, cumsumAux, diffPrepend0, diffAux,
      roundHalfEven, ratFloor_eq_floor]
  have hsum : ([1/5, -1/10] : List ℚ).sum = 1/10 := by norm_num
  have hlen : roundHalfEven ((1/10 : ℚ) / (1/100)) = 10 := by
    norm_num [roundHalfEven, ratFloor_eq_floor]
  have hfit : fitLength (expandMel2ph [20, -10]) ((10 : ℤ)).toNat
      = List.replicate 10 1 := by decide
  unfold variance_process_item get_mel2ph
  have hcond : ¬ (([false].all id) = true) := by decide
  rw [if_neg hcond, hsum, hlen, hdur, hfit]

/-- C9 (amended): the aligner as implemented performs no negativity check
and raises no error (`C9_cex` exhibits a returned record containing a
negative per-unit frame count); what does hold is that whenever all
durations are non-negative and the hop is positive, every computed
per-unit frame count is non-negative. -/
theorem C9_aligner_nonneg (durs : List ℚ) (hop : ℚ)
    (hd : ∀ d ∈ durs, 0 ≤ d) (hhop : 0 < hop) :
    ∀ c ∈ phDurFrames durs hop, 0 ≤ c := by
  have hchain : List.Chain (· ≤ ·) 0 (cumsum durs) := chain_cumsumAux durs 0 hd
  have hmap := List.chain_map_of_chain (fun c => roundHalfEven (c / hop + 1/2))
    (fun a b hab => roundHalfEven_mono (by gcongr)) hchain
  have h0 : roundHalfEven ((0 : ℚ) / hop + 1/2) = 0 := by
    norm_num [roundHalfEven, ratFloor_eq_floor]
  simp only [h0] at hmap
  unfold phDurFrames diffPrepend0 ph_acc
  exact diffAux_nonneg _ 0 hmap

/-- C9 witness: the amended non-negativity guarantee at durations `[0.1]`,
hop `0.01`. -/
theorem C9_witness :
    (∀ d ∈ [(1/10 : ℚ)], 0 ≤ d) ∧ (0 < (1/100 : ℚ)) ∧
    ∀ c ∈ phDurFrames [1/10] (1/100), 0 ≤ c :=
  ⟨by norm_num, by norm_num,
    C9_aligner_nonneg [1/10] (1/100) (by norm_num) (by norm_num)⟩

/-! ### Lemmas for the phoneme-level mean pitch -/

theorem gatherPad1_length (vals : List ℤ) (idx : List ℕ) :
    (gatherPad1 vals idx).length = idx.length := by
  simp [gatherPad1]

theorem gatherPad1_getD (vals : List ℤ) (idx : List ℕ) (f : ℕ) (hf : f < idx.length) :
    (gatherPad1 vals idx).getD f 1
      = if idx.getD f 0 = 0 then 1 else vals.getD (idx.getD f 0 - 1) 1 := by
  unfold gatherPad1
  rw [List.getD_eq_getElem _ _ (by simpa using hf), List.getElem_map,
    List.getD_eq_getElem _ _ hf]

theorem ph_dur_rest_getD (t : ℕ) (m : List ℕ) (rest : List Bool) (p : ℕ) (hp : p < t) :
    (ph_dur_rest t m rest).getD p 1 = (restFrameCount m rest p : ℤ) := by
  unfold ph_dur_rest restFrameCount
  rw [List.getD_eq_getElem _ _ (by simpa using hp), List.getElem_map, List.getElem_range]

theorem restFrameCount_le (m : List ℕ) : ∀ (rest : List Bool) (p : ℕ),
    restFrameCount m rest p ≤ frameCount m p := by
  induction m with
  | nil => intro rest p; simp [restFrameCount, frameCount]
  | cons a as ih =>
    intro rest p
    cases rest with
    | nil => simp [restFrameCount, frameCount]
    | cons b bs =>
      have h := ih bs p
      unfold restFrameCount frameCount at h ⊢
      simp only [List.zip_cons_cons, List.filter_cons, decide_eq_true_eq]
      by_cases ha : a = p + 1
      · by_cases hb : b = true
        · rw [if_pos ⟨ha, hb⟩, if_pos ha]
          simpa using h
        · rw [if_neg (fun hc => hb hc.2), if_pos ha]
          simp only [List.length_cons]
          omega
      · rw [if_neg (fun hc => ha hc.1), if_neg ha]
        exact h

/-- C10: the denominator used for the phoneme-level mean MIDI pitch is
never zero; at every frame of phoneme `p+1` it equals the phoneme's
non-rest frame count with 1 substituted when that count is zero (assuming
the gathered per-unit frame count agrees with the alignment); and a
phoneme all of whose frames are rest frames gets mean pitch 0. -/
theorem C10_pitch_divisor (t_txt : ℕ) (mel2ph : List ℕ) (framePitch : List ℚ)
    (ph_dur : List ℤ) (p f : ℕ)
    (hlen : framePitch.length = mel2ph.length)
    (hp : p < t_txt) (hf : f < mel2ph.length)
    (hfp : mel2ph.getD f 0 = p + 1) :
    (∀ d r : ℤ, divisor d r ≠ 0) ∧
    (ph_dur.getD p 1 = (frameCount mel2ph p : ℤ) →
      divisor ((gatherPad1 ph_dur mel2ph).getD f 1)
        ((gatherPad1 (ph_dur_rest t_txt mel2ph
            (framePitch.map fun q => decide (q = 0))) mel2ph).getD f 1)
        = if nonRestCount mel2ph (framePitch.map fun q => decide (q = 0)) p = 0
          then 1
          else nonRestCount mel2ph (framePitch.map fun q => decide (q = 0)) p) ∧
    ((∀ g, g < mel2ph.length → mel2ph.getD g 0 = p + 1 → framePitch.getD g 1 = 0) →
      (ph_midi t_txt mel2ph framePitch ph_dur).getD p 1 = 0) := by
  refine ⟨?_, ?_, ?_⟩
  · intro d r
    unfold divisor
    split_ifs with h <;> omega
  · intro hcons
    have h1 : (gatherPad1 ph_dur mel2ph).getD f 1 = ph_dur.getD p 1 := by
      rw [gatherPad1_getD _ _ f hf, hfp]
      simp
    have h2 : (gatherPad1 (ph_dur_rest t_txt mel2ph
        (framePitch.map fun q => decide (q = 0))) mel2ph).getD f 1
        = (restFrameCount mel2ph (framePitch.map fun q => decide (q = 0)) p : ℤ) := by
      rw [gatherPad1_getD _ _ f hf, hfp]
      simp only [Nat.succ_ne_zero, if_false, Nat.add_sub_cancel]
      exact ph_dur_rest_getD t_txt mel2ph _ p hp
    rw [h1, h2, hcons]
    have hle := restFrameCount_le mel2ph (framePitch.map fun q => decide (q = 0)) p
    unfold divisor nonRestCount
    split_ifs <;> omega
  · intro hrest0
    unfold ph_midi
    rw [List.getD_eq_getElem _ _ (by simpa using hp), List.getElem_map, List.getElem_range]
    apply List.sum_eq_zero
    intro x hx
    simp only [List.mem_map] at hx
    obtain ⟨fc, hfc, rfl⟩ := hx
    rw [List.mem_filter] at hfc
    obtain ⟨hfc_mem, hfc_cond⟩ := hfc
    rw [List.mem_iff_getElem] at hfc_mem
    obtain ⟨i, hi, hieq⟩ := hfc_mem
    have hclen : (pitchContrib t_txt mel2ph framePitch ph_dur).length = mel2ph.length := by
      simp [pitchContrib, gatherPad1, hlen]
    have him : i < mel2ph.length := by
      rw [List.length_zip, hclen] at hi
      omega
    have hic : i < (pitchContrib t_txt mel2ph framePitch ph_dur).length := by
      rw [hclen]
      exact him
    rw [List.getElem_zip] at hieq
    have hm2pi : mel2ph[i] = p + 1 := by
      have := hfc_cond
      rw [← hieq] at this
      simpa using this
    have hifp : i < framePitch.length := by
      rw [hlen]
      exact him
    have hfpi : framePitch[i] = 0 := by
      have := hrest0 i him (by rw [List.getD_eq_getElem _ _ him]; exact hm2pi)
      rwa [List.getD_eq_getElem _ _ hifp] at this
    have hcontrib : (pitchContrib t_txt mel2ph framePitch ph_dur)[i] = 0 := by
      unfold pitchContrib
      have hiz : i < (framePitch.zip ((gatherPad1 ph_dur mel2ph).zip
          (gatherPad1 (ph_dur_rest t_txt mel2ph
            (framePitch.map fun q => decide (q = 0))) mel2ph))).length := by
        simp only [List.length_zip, gatherPad1_length]
        omega
      rw [List.getElem_map, List.getElem_zip]
      simp only [hfpi]
      exact zero_div _
    have : fc.2 = 0 := by
      rw [← hieq, hcontrib]
    rw [this]

/-- C10 witness: alignment `[1, 1, 2]` with frame pitches `[0, 0, 5]` and
per-unit frame counts `[2, 1]`: phoneme 1 is fully rest, so at its frames
the divisor is 1 and its mean pitch is 0. -/
theorem C10_witness :
    (divisor ((gatherPad1 [2, 1] [1, 1, 2]).getD 0 1)
        ((gatherPad1 (ph_dur_rest 2 [1, 1, 2]
            ([(0:ℚ), 0, 5].map fun q => decide (q = 0))) [1, 1, 2]).getD 0 1)
      = if nonRestCount [1, 1, 2] ([(0:ℚ), 0, 5].map fun q => decide (q = 0)) 0 = 0
        then 1
        else nonRestCount [1, 1, 2] ([(0:ℚ), 0, 5].map fun q => decide (q = 0)) 0) ∧
    (ph_midi 2 [1, 1, 2] [(0:ℚ), 0, 5] [2, 1]).getD 0 1 = 0 :=
  ⟨(C10_pitch_divisor 2 [1, 1, 2] [0, 0, 5] [2, 1] 0 0 rfl (by omega) (by decide)
      (by decide)).2.1 (by decide),
   (C10_pitch_divisor 2 [1, 1, 2] [0, 0, 5] [2, 1] 0 0 rfl (by omega) (by decide)
      (by decide)).2.2 (by decide)⟩

/-! ### Lemmas for the coverage validator -/

theorem gatherPhonemes_ok (items : List (String × List String)) :
    ∀ acc l, gatherPhonemes acc items = .ok l →
      l = acc ++ (items.map Prod.snd).flatten := by
  induction items with
  | nil =>
    intro acc l h
    simp only [gatherPhonemes] at h
    cases h
    simp
  | cons it rest ih =>
    intro acc l h
    obtain ⟨nm, seq⟩ := it
    rw [gatherPhonemes] at h
    by_cases hc : (acc ++ seq).length = 0
    · rw [if_pos hc] at h
      exact absurd h (by simp)
    · rw [if_neg hc] at h
      have := ih (acc ++ seq) l h
      simp only [this, List.map_cons, List.flatten_cons, List.append_assoc]

/-- C6 counterexample: with required set `{a}` and a single item
contributing zero phonemes, the observed set differs from the required
set, yet the validator raises the empty-tokens error instead of the
mismatch error carrying the two sorted lists, and prints no distribution
summary beforehand. -/
theorem C6_cex :
    sameSet ((([("i", ([] : List String))].map Prod.snd).flatten).dedup) ["a"] = false ∧
    (check_coverage ["a"] [("i", [])]).printed = [] ∧
    (check_coverage ["a"] [("i", [])]).result
      = .error (.emptyTokens "i") := by
  refine ⟨by decide, ?_, ?_⟩ <;> decide

/-- C6 (amended): whenever the phoneme-accumulation loop does not raise the
empty-tokens error first (it fires exactly when the cumulative phoneme
list is empty after some item) and the observed phoneme set differs from
the required set, the validator fails with the mismatch error carrying two
sorted lists (observed-but-not-required and required-but-never-observed),
and the printed distribution summary lists occurrence counts for the
sorted required symbols only, produced before the error. -/
theorem C6_coverage_mismatch (required : List String)
    (items : List (String × List String)) (phOcc : List String)
    (hok : gatherPhonemes [] items = .ok phOcc)
    (hneq : sameSet phOcc.dedup required = false) :
    ∃ u m, (check_coverage required items).result = .error (.mismatch u m) ∧
      List.Sorted (· ≤ ·) u ∧ List.Sorted (· ≤ ·) m ∧
      (∀ x, x ∈ u ↔ x ∈ phOcc ∧ ¬ x ∈ required) ∧
      (∀ x, x ∈ m ↔ x ∈ required ∧ ¬ x ∈ phOcc) ∧
      ((check_coverage required items).printed
        = (sortStrs required.dedup).map fun k => (k, phOcc.count k)) ∧
      phOcc = (items.map Prod.snd).flatten := by
  have hflat : phOcc = (items.map Prod.snd).flatten := by
    simpa using gatherPhonemes_ok items [] phOcc hok
  unfold check_coverage
  rw [hok]
  simp only [hneq, Bool.false_eq_true, if_false]
  refine ⟨sortStrs (phOcc.dedup.filter fun x => ¬ required.contains x),
    sortStrs (required.dedup.filter fun x => ¬ phOcc.dedup.contains x),
    rfl, List.sorted_insertionSort _ _, List.sorted_insertionSort _ _,
    ?_, ?_, trivial, hflat⟩
  · intro x
    unfold sortStrs
    rw [(List.perm_insertionSort _ _).mem_iff]
    simp [List.mem_filter, List.mem_dedup, List.elem_iff]
  · intro x
    unfold sortStrs
    rw [(List.perm_insertionSort _ _).mem_iff]
    simp [List.mem_filter, List.mem_dedup, List.elem_iff]

/-- C6 witness: the amended statement at required `{a, b, c}` and observed
multiset `{a, a, b}` (one item): the mismatch error is raised with sorted
lists, after the summary. -/
theorem C6_witness :
    (gatherPhonemes [] [("i", ["a", "a", "b"])] = .ok ["a", "a", "b"]) ∧
    (sameSet (["a", "a", "b"].dedup) ["a", "b", "c"] = false) ∧
    (∃ u m, (check_coverage ["a", "b", "c"] [("i", ["a", "a", "b"])]).result
        = .error (.mismatch u m) ∧
      List.Sorted (· ≤ ·) u ∧ List.Sorted (· ≤ ·) m ∧
      (∀ x, x ∈ u ↔ x ∈ ["a", "a", "b"] ∧ ¬ x ∈ ["a", "b", "c"]) ∧
      (∀ x, x ∈ m ↔ x ∈ ["a", "b", "c"] ∧ ¬ x ∈ ["a", "a", "b"]) ∧
      ((check_coverage ["a", "b", "c"] [("i", ["a", "a", "b"])]).printed
        = (sortStrs ["a", "b", "c"].dedup).map fun k => (k, ["a", "a", "b"].count k)) ∧
      (["a", "a", "b"] : List String)
        = ([("i", ["a", "a", "b"])].map Prod.snd).flatten) :=
  ⟨by decide, by decide,
    C6_coverage_mismatch ["a", "b", "c"] [("i", ["a", "a", "b"])] ["a", "a", "b"]
      (by decide) (by decide)⟩

/-- C7: the empty-tokens check tests the cumulative phoneme list, not the
current item: with required set `{x}` and items `[(a, [x]), (b, [])]` the
second item contributes zero phonemes, yet the validator succeeds. -/
theorem C7_empty_item_not_caught :
    (([("a", ["x"]), ("b", ([] : List String))].getD 1 ("", ["x"])).2 = []) ∧
    (check_coverage ["x"] [("a", ["x"]), ("b", [])]).result = .ok () := by
  refine ⟨by decide, ?_⟩
  decide

/-! ### Augmentation scheduler claims -/

/-- C3: with a valid range (min below zero, max above) and bounded uniform
draws, the random pitch-shift branch succeeds with exactly
`int(scale * len(items))` tasks; every task's shift is `min * abs(r)` for a
negative draw `r` and `max * r` otherwise, hence lies within
`[min, max]` with sign matching the draw. -/
theorem C3_random_pitch_shift (kmin kmax scale : ℚ) (names : List String)
    (pick : ℕ → ℕ) (draw : ℕ → ℚ)
    (hmin : kmin < 0) (hmax : 0 < kmax)
    (hdraw : ∀ j, -1 ≤ draw j ∧ draw j ≤ 1) :
    ∃ tasks, random_pitch_shifting_branch true kmin kmax scale names pick draw
        = .ok tasks ∧
      tasks.length = (pyInt (scale * (names.length : ℚ))).toNat ∧
      ∀ t ∈ tasks, ∃ j, t.key_shift = some (keyShiftOf kmin kmax (draw j)) ∧
        kmin ≤ keyShiftOf kmin kmax (draw j) ∧
        keyShiftOf kmin kmax (draw j) ≤ kmax ∧
        (draw j < 0 → keyShiftOf kmin kmax (draw j) = kmin * |draw j| ∧
          keyShiftOf kmin kmax (draw j) ≤ 0) ∧
        (0 ≤ draw j → keyShiftOf kmin kmax (draw j) = kmax * draw j ∧
          0 ≤ keyShiftOf kmin kmax (draw j)) := by
  unfold random_pitch_shifting_branch
  rw [if_neg (by simp), if_neg (not_not_intro ⟨hmin, hmax⟩)]
  refine ⟨_, rfl, by simp, ?_⟩
  intro t ht
  simp only [List.mem_map, List.mem_range] at ht
  obtain ⟨j, hj, rfl⟩ := ht
  have hk := keyShiftOf_spec hmin hmax (hdraw j).1 (hdraw j).2
  exact ⟨j, rfl, hk.1, hk.2.1, hk.2.2.1, hk.2.2.2⟩

/-- C3 witness: range `[-3, 3]`, scale `1/2` over 10 items with constant
draw `1/2`: exactly 5 tasks are produced. -/
theorem C3_witness :
    ((pyInt ((1/2 : ℚ) * ((["0:a", "0:b", "0:c", "0:d", "0:e", "0:f", "0:g", "0:h",
        "0:i", "0:j"] : List String).length : ℚ))).toNat = 5) ∧
    (∃ tasks, random_pitch_shifting_branch true (-3) 3 (1/2)
        ["0:a", "0:b", "0:c", "0:d", "0:e", "0:f", "0:g", "0:h", "0:i", "0:j"]
        (fun j => j) (fun _ => 1/2) = .ok tasks ∧
      tasks.length = (pyInt ((1/2 : ℚ) * ((["0:a", "0:b", "0:c", "0:d", "0:e", "0:f",
        "0:g", "0:h", "0:i", "0:j"] : List String).length : ℚ))).toNat ∧
      ∀ t ∈ tasks, ∃ j, t.key_shift
          = some (keyShiftOf (-3) 3 ((fun _ : ℕ => (1/2 : ℚ)) j)) ∧
        (-3 : ℚ) ≤ keyShiftOf (-3) 3 ((fun _ : ℕ => (1/2 : ℚ)) j) ∧
        keyShiftOf (-3) 3 ((fun _ : ℕ => (1/2 : ℚ)) j) ≤ 3 ∧
        ((fun _ : ℕ => (1/2 : ℚ)) j < 0 →
          keyShiftOf (-3) 3 ((fun _ : ℕ => (1/2 : ℚ)) j)
            = -3 * |(fun _ : ℕ => (1/2 : ℚ)) j| ∧
          keyShiftOf (-3) 3 ((fun _ : ℕ => (1/2 : ℚ)) j) ≤ 0) ∧
        ((0 : ℚ) ≤ (fun _ : ℕ => (1/2 : ℚ)) j →
          keyShiftOf (-3) 3 ((fun _ : ℕ => (1/2 : ℚ)) j)
            = 3 * (fun _ : ℕ => (1/2 : ℚ)) j ∧
          (0 : ℚ) ≤ keyShiftOf (-3) 3 ((fun _ : ℕ => (1/2 : ℚ)) j))) :=
  ⟨by rw [show ((["0:a", "0:b", "0:c", "0:d", "0:e", "0:f", "0:g", "0:h",
        "0:i", "0:j"] : List String).length : ℚ) = 10 by norm_num]
      norm_num [pyInt, ratFloor_eq_floor]
      rfl,
    C3_random_pitch_shift (-3) 3 (1/2)
      ["0:a", "0:b", "0:c", "0:d", "0:e", "0:f", "0:g", "0:h", "0:i", "0:j"]
      (fun j => j) (fun _ => 1/2) (by norm_num) (by norm_num)
      (fun _ => ⟨by norm_num, by norm_num⟩)⟩

theorem fixedTasksAux_mem (spk k : ℕ) (allNames : List String)
    (pick : ℕ → ℕ → ℕ) :
    ∀ (ts : List ℚ) (i0 : ℕ) (t : AugTask),
      t ∈ fixedTasksAux spk k allNames pick i0 ts →
      ∃ j, j < ts.length ∧ t.key_shift = some (ts.getD j 0) ∧
        t.replace_spk_id
          = some (parseDsId t.name + (((i0 + j : ℕ) : ℤ) + 1) * (spk : ℤ)) := by
  intro ts
  induction ts with
  | nil => intro i0 t ht; simp [fixedTasksAux] at ht
  | cons c cs ih =>
    intro i0 t ht
    unfold fixedTasksAux at ht
    rw [List.mem_append] at ht
    rcases ht with h | h
    · unfold fixedTasksForTarget at h
      rw [List.mem_map] at h
      obtain ⟨n, hn, rfl⟩ := h
      exact ⟨0, by simp, by simp, by simp⟩
    · obtain ⟨j, hj, hks, hid⟩ := ih (i0 + 1) t h
      refine ⟨j + 1, by simpa using hj, by simpa using hks, ?_⟩
      rw [hid]
      congr 2
      push_cast
      ring

/-- C4: configuring fixed pitch-shift while random pitch-shift is present
makes the branch fail before producing any task; when it succeeds, every
task produced for the target at index `i` carries replacement speaker id
`parseDsId(name) + (i + 1) * speaker_count`, which (for a valid
non-negative original id) differs from every pre-existing speaker id
`0 ≤ s < speaker_count`. -/
theorem C4_fixed_pitch_shift (useSpkId : Bool) (numSpk spkMapSize : ℕ)
    (targets : List ℚ) (scale : ℚ) (names : List String) (pick : ℕ → ℕ → ℕ) :
    (fixed_pitch_shifting_branch true useSpkId numSpk spkMapSize targets scale
        names pick
      = .error "Fixed pitch shifting augmentation is not compatible with random pitch shifting.") ∧
    (∀ tasks, fixed_pitch_shifting_branch false useSpkId numSpk spkMapSize targets
        scale names pick = .ok tasks →
      ∀ t ∈ tasks, ∃ i, i < targets.length ∧
        t.key_shift = some (targets.getD i 0) ∧
        t.replace_spk_id = some (parseDsId t.name + ((i : ℤ) + 1) * (spkMapSize : ℤ)) ∧
        (0 ≤ parseDsId t.name → ∀ s : ℤ, 0 ≤ s → s < (spkMapSize : ℤ) →
          t.replace_spk_id ≠ some s)) := by
  constructor
  · rfl
  · intro tasks htasks t ht
    unfold fixed_pitch_shifting_branch at htasks
    rw [if_neg (by simp)] at htasks
    split_ifs at htasks with h1 h2 h3 h4
    obtain ⟨j, hj, hks, hid⟩ := fixedTasksAux_mem spkMapSize _ names pick targets 0 t
      (by cases htasks; exact ht)
    refine ⟨j, hj, hks, by simpa using hid, ?_⟩
    intro hpd s hs0 hs1 heq
    rw [hid] at heq
    simp only [Option.some.injEq] at heq
    have hj0 : (0 : ℤ) ≤ ((0 + j : ℕ) : ℤ) := Int.ofNat_nonneg _
    have hmul : (spkMapSize : ℤ) ≤ (((0 + j : ℕ) : ℤ) + 1) * (spkMapSize : ℤ) := by
      nlinarith [Int.ofNat_nonneg spkMapSize]
    omega

/-- C4 witness: two targets and a three-speaker map: the branch produces
the two tasks with replacement speaker ids `original + 3` and
`original + 6` (original id 0), the task for the target at index 0
satisfies the id formula and avoids every pre-existing speaker id, and
the random/fixed combination is rejected. -/
theorem C4_witness :
    (fixed_pitch_shifting_branch true true 9 3 [2, -2] (1/2) ["0:a", "0:b"]
        (fun _ _ => 0)
      = .error "Fixed pitch shifting augmentation is not compatible with random pitch shifting.") ∧
    (fixed_pitch_shifting_branch false true 9 3 [2, -2] (1/2) ["0:a", "0:b"]
        (fun _ _ => 0)
      = .ok [⟨"0:a", some 2, some 3, none⟩, ⟨"0:a", some (-2), some 6, none⟩]) ∧
    (∃ i, i < ([2, -2] : List ℚ).length ∧
      (AugTask.mk "0:a" (some 2) (some 3) none).key_shift
        = some (([2, -2] : List ℚ).getD i 0) ∧
      (AugTask.mk "0:a" (some 2) (some 3) none).replace_spk_id
        = some (parseDsId "0:a" + ((i : ℤ) + 1) * ((3 : ℕ) : ℤ)) ∧
      (0 ≤ parseDsId "0:a" → ∀ s : ℤ, 0 ≤ s → s < ((3 : ℕ) : ℤ) →
        (AugTask.mk "0:a" (some 2) (some 3) none).replace_spk_id ≠ some s)) := by
  have hk : (pyInt ((1/2 : ℚ) * ((["0:a", "0:b"] : List String).length : ℚ))).toNat
      = 1 := by
    rw [show ((["0:a", "0:b"] : List String).length : ℚ) = 2 by norm_num]
    norm_num [pyInt, ratFloor_eq_floor]
  have hded : ([2, -2] : List ℚ).dedup = [2, -2] := by
    rw [List.dedup_cons_of_not_mem (by norm_num)]
    simp
  have heval : fixed_pitch_shifting_branch false true 9 3 [2, -2] (1/2)
      ["0:a", "0:b"] (fun _ _ => 0)
      = .ok [⟨"0:a", some 2, some 3, none⟩, ⟨"0:a", some (-2), some 6, none⟩] := by
    unfold fixed_pitch_shifting_branch
    rw [if_neg (by simp), if_neg (by simp [hded]), if_neg (by simp),
      if_neg (by norm_num), if_neg (not_not_intro (by norm_num)), hk]
    congr 1
  refine ⟨(C4_fixed_pitch_shift true 9 3 [2, -2] (1/2) ["0:a", "0:b"]
      (fun _ _ => 0)).1, heval, ?_⟩
  exact (C4_fixed_pitch_shift true 9 3 [2, -2] (1/2) ["0:a", "0:b"]
      (fun _ _ => 0)).2 _ heval _ (by simp)

/-- C5: in the time-stretch branch, a draw from the already-scheduled task
pool (`aug_type == 1`) appends an unmodified copy of the drawn prior task
(the copy does not carry the newly drawn speed) and writes the new speed
into the already-queued prior task itself; only the claimed behavior of
the explicit mutation pool (`aug_type == 2`) — rewrite in place, append
nothing — matches the code.  Evaluated on a prior pitch-shift task with
`key_shift = 2` and drawn speed `1.2`. -/
theorem C5_from_aug_appends_stale_copy :
    (timeStretchFromAugStep ⟨"0:item", some 2, none, none⟩ (6/5)).1
      = ⟨"0:item", some 2, none, none⟩ ∧
    (timeStretchFromAugStep ⟨"0:item", some 2, none, none⟩ (6/5)).2
      = ⟨"0:item", some 2, none, some (6/5)⟩ ∧
    timeStretchMutateStep ⟨"0:item", some 2, none, none⟩ (6/5)
      = ⟨"0:item", some 2, none, some (6/5)⟩ :=
  ⟨rfl, rfl, rfl⟩

/-! ### Driver claims -/

/-- C8: a per-item result that is `None` (as produced by the variance
binarizer for a fully unvoiced item) contributes nothing to the record
store, the length index, or the duration totals: the split processes
exactly as if the item were absent, and all other items are processed
normally. -/
theorem C8_empty_pitch_skipped {α : Type} (nameOf : α → String)
    (lengthOf : α → ℤ) (secondsOf : α → ℚ) (augMap : String → List AugTask)
    (applyAug : α → AugTask → α) (pre post : List (Option α))
    (name : String) (ph_dur_sec : List ℚ) (timestep : ℚ) (uv : List Bool)
    (huv : uv.all id = true) :
    variance_process_item name ph_dur_sec timestep uv = none ∧
    process_data_split nameOf lengthOf secondsOf augMap applyAug
        (pre ++ none :: post)
      = process_data_split nameOf lengthOf secondsOf augMap applyAug
        (pre ++ post) := by
  constructor
  · unfold variance_process_item
    rw [if_pos huv]
  · unfold process_data_split
    rw [List.foldl_append, List.foldl_append, List.foldl_cons]
    rfl

/-- C8 witness: a three-item batch whose middle item is fully unvoiced:
the store and length index equal those of the two-item batch. -/
theorem C8_witness :
    (([true, true] : List Bool).all id = true) ∧
    (variance_process_item "skip" [1/10] (1/100) [true, true] = none ∧
      process_data_split VarianceRecord.name VarianceRecord.length
          VarianceRecord.seconds (fun _ => []) (fun r _ => r)
          ([some ⟨"a", 1, 100, [100], []⟩] ++ none
            :: [some ⟨"b", 2, 200, [200], []⟩])
        = process_data_split VarianceRecord.name VarianceRecord.length
          VarianceRecord.seconds (fun _ => []) (fun r _ => r)
          ([some ⟨"a", 1, 100, [100], []⟩] ++ [some ⟨"b", 2, 200, [200], []⟩])) :=
  ⟨rfl, C8_empty_pitch_skipped VarianceRecord.name VarianceRecord.length
    VarianceRecord.seconds (fun _ => []) (fun r _ => r)
    [some ⟨"a", 1, 100, [100], []⟩] [some ⟨"b", 2, 200, [200], []⟩]
    "skip" [1/10] (1/100) [true, true] rfl⟩

end DiffSinger
